import Mathlib

/-!
Verification of the pipeline-record CRUD-over-CSV program
(`src/services/datasetService.ts`, `src/services/mainService.ts`,
`src/models/Record.ts`, `src/utils/displayUtils.ts`).

Text is modelled as `List Char` (Lean `String` is a wrapper around
`List Char`; working on the char list keeps every operation structurally
recursive and kernel-computable).  JavaScript numbers are modelled as
`Option (Int × Nat)`: `none` is `NaN`, and `some (i, k)` is the value
`i / 10^k`, i.e. the exact decimal written with `k` fraction digits.
Every JS double that the program produces from parsing decimal text or
re-printing it is such a finite decimal; `±Infinity`, hex literals and
exponent notation are outside the modelled fragment (the program never
produces them on the analysed paths).
-/

set_option maxRecDepth 100000

namespace TsPipeline

/-- Text: JS strings as lists of characters. -/
abbrev Str := List Char

/-- Convert a Lean string literal to the model's text type. -/
def str (s : String) : Str := s.data

/-- The double-quote character `"` (code 34), csv-parse's quote char. -/
def quoteChar : Char := Char.ofNat 34

/-- The newline character (code 10), the loader's line separator. -/
def nlChar : Char := Char.ofNat 10

/-- JS whitespace recognised by `String.prototype.trim` / `ToNumber`
(space, tab, LF, CR — the fragment the program can meet on one input line). -/
def isWSChar (c : Char) : Bool :=
  c = ' ' || c = Char.ofNat 9 || c = nlChar || c = Char.ofNat 13

/-- JS `String.prototype.trim`: strip leading and trailing whitespace. -/
def trimWS (l : Str) : Str :=
  ((l.dropWhile isWSChar).reverse.dropWhile isWSChar).reverse

/-- JS `String.prototype.split(sep)` for a one-character separator:
`"".split(sep) = [""]`, and a trailing separator yields a final empty piece. -/
def splitOnChar (sep : Char) : Str → List Str
  | [] => [[]]
  | c :: rest =>
    if c = sep then [] :: splitOnChar sep rest
    else
      match splitOnChar sep rest with
      | [] => [[c]]
      | f :: fs => (c :: f) :: fs

/-- JS `Array.prototype.join(sep)` for a one-character separator. -/
def joinWith (sep : Char) : List Str → Str
  | [] => []
  | [f] => f
  | f :: g :: rest => f ++ sep :: joinWith sep (g :: rest)

/-! ## JS numbers -/

/-- A JS number as the program observes it: `none` is `NaN`,
`some (i, k)` is the finite decimal `i / 10^k` printed with `k` fraction
digits. -/
abbrev JsNum := Option (Int × Nat)

/-- The JS number `0` (as produced by `+""` and printed `"0"`). -/
def jsZero : JsNum := some (0, 0)

/-- Decimal digit `d` (`d < 10`) as a character. -/
def digitChar (d : Nat) : Char := Char.ofNat (48 + d)

/-- Numeric value of a decimal digit character. -/
def charVal (c : Char) : Nat := c.toNat - 48

/-- Is `c` a decimal digit? -/
def isDigitChar (c : Char) : Bool := 48 ≤ c.toNat && c.toNat ≤ 57

/-- Little-endian base-10 digits with explicit fuel (structural recursion,
so the kernel can evaluate it; equal to `Nat.digits 10` when the fuel
suffices). -/
def natDigitsAux : Nat → Nat → List Nat
  | 0, _ => []
  | _ + 1, 0 => []
  | fuel + 1, n + 1 => (n + 1) % 10 :: natDigitsAux fuel ((n + 1) / 10)

/-- Little-endian base-10 digits of `n`. -/
def natDigitsLSB (n : Nat) : List Nat := natDigitsAux n n

/-- Decimal digits of `n`, most significant first; `0` prints as `"0"`. -/
def natDigitsMSB (n : Nat) : Str :=
  if n = 0 then [digitChar 0] else ((natDigitsLSB n).map digitChar).reverse

/-- Value of a most-significant-first digit string. -/
def digitsToNat (cs : Str) : Nat :=
  cs.foldl (fun acc c => 10 * acc + charVal c) 0

/-- Left-pad a digit string with `'0'` up to length `n`. -/
def padZero (n : Nat) (cs : Str) : Str :=
  List.replicate (n - cs.length) (digitChar 0) ++ cs

/-- JS `Number.prototype.toString` on the modelled numbers: `NaN` prints
`"NaN"`; `some (i, k)` prints the decimal with exactly `k` fraction digits
(for `k = 0`, a plain integer). -/
def numToString : JsNum → Str
  | none => str "NaN"
  | some (i, k) =>
    let sign : Str := if i < 0 then ['-'] else []
    let ds := natDigitsMSB i.natAbs
    if k = 0 then sign ++ ds
    else
      let padded := padZero (k + 1) ds
      sign ++ padded.take (padded.length - k) ++ '.' :: padded.drop (padded.length - k)

/-- Longest digit prefix of a character list, with the rest. -/
def takeDigits (cs : Str) : Str × Str :=
  match cs with
  | [] => ([], [])
  | c :: rest =>
    if isDigitChar c then
      let (ds, r) := takeDigits rest
      (c :: ds, r)
    else ([], c :: rest)

/-- Unsigned decimal numeral `digits [ '.' digits ]`, which must consume the
whole input and contain at least one digit (the fragment of the ECMA
*StrNumericLiteral* grammar the program's data exercises; exponent, hex and
`Infinity` forms are outside the model). -/
def parseDecimalAll (cs : Str) : Option (Nat × Nat) :=
  let (ip, rest) := takeDigits cs
  match rest with
  | [] => if ip = [] then none else some (digitsToNat ip, 0)
  | c :: rest2 =>
    if c = '.' then
      let (fp, rest3) := takeDigits rest2
      if rest3 = [] && (ip ≠ [] || fp ≠ []) then some (digitsToNat (ip ++ fp), fp.length)
      else none
    else none

/-- Attach a sign to an unsigned parse result. -/
def applySign (neg : Bool) : Option (Nat × Nat) → JsNum
  | none => none
  | some (n, k) => some (if neg then -(n : Int) else (n : Int), k)

/-- The sign/numeral part of `ToNumber`, applied after trimming. -/
def jsToNumberAux : Str → JsNum
  | [] => jsZero
  | c :: rest =>
    if c = '-' then applySign true (parseDecimalAll rest)
    else if c = '+' then applySign false (parseDecimalAll rest)
    else applySign false (parseDecimalAll (c :: rest))

/-- JS unary `+` on a string (`ToNumber`): trim whitespace; the empty string
is `0`; otherwise an optionally signed decimal numeral, else `NaN`. -/
def jsToNumber (s : Str) : JsNum := jsToNumberAux (trimWS s)

/-- JS `parseInt(s)` (radix 10): strip leading whitespace, optional sign,
then the longest digit prefix; `NaN` when there is no digit. -/
def jsParseInt (s : Str) : JsNum :=
  let t := s.dropWhile isWSChar
  let (neg, u) : Bool × Str :=
    match t with
    | c :: rest => if c = '-' then (true, rest) else if c = '+' then (false, rest) else (false, t)
    | [] => (false, t)
  let (ds, _) := takeDigits u
  if ds = [] then none
  else some (if neg then -(digitsToNat ds : Int) else (digitsToNat ds : Int), 0)

/-- JS `parseFloat(s)`: strip leading whitespace, optional sign, then the
longest `digits [ '.' digits ]` prefix; `NaN` when there is no digit
(exponent suffixes are outside the modelled fragment). -/
def jsParseFloat (s : Str) : JsNum :=
  let t := s.dropWhile isWSChar
  let (neg, u) : Bool × Str :=
    match t with
    | c :: rest => if c = '-' then (true, rest) else if c = '+' then (false, rest) else (false, t)
    | [] => (false, t)
  let (ip, rest) := takeDigits u
  let (fp, _) : Str × Str :=
    match rest with
    | c :: rest2 => if c = '.' then takeDigits rest2 else ([], [])
    | [] => ([], [])
  if ip = [] && fp = [] then none
  else some (if neg then -(digitsToNat (ip ++ fp) : Int) else (digitsToNat (ip ++ fp) : Int), fp.length)

/-! ## csv-parse tokenizer

Model of `csv-parse` with `{ delimiter: ',' }` (quote char `"`): splitting
one physical line into fields.  Outside quotes a comma ends the field and a
quote at field start opens quoting; inside quotes a doubled quote is a
literal quote and a single quote closes quoting.  A stray quote inside an
unquoted field is kept literally (`relax_quotes: true`, the option used by
`createRecord`/`updateRecord`; the data the loader meets never exercises
the difference from strict mode). -/

/-- One step state machine over the characters of a line:
`inQ` is the quote state, `cur` the current field. -/
def csvRowAux : Str → Bool → Str → List Str
  | [], _, cur => [cur]
  | [c], true, cur =>
    if c = quoteChar then [cur] else [cur ++ [c]]
  | c :: c2 :: rest, true, cur =>
    if c = quoteChar then
      if c2 = quoteChar then csvRowAux rest true (cur ++ [quoteChar])
      else csvRowAux (c2 :: rest) false cur
    else csvRowAux (c2 :: rest) true (cur ++ [c])
  | c :: rest, false, cur =>
    if c = ',' then cur :: csvRowAux rest false []
    else if c = quoteChar && cur = [] then csvRowAux rest true cur
    else csvRowAux rest false (cur ++ [c])

/-- Split one CSV line into fields, quote-aware (csv-parse). -/
def csvSplitRow (l : Str) : List Str := csvRowAux l false []

/-- `csv-parse` over a whole input: one record per line (no header
handling of its own); a trailing newline does not produce a final empty
record.  Quoted newlines are outside the model (the analysed inputs and the
writer's output never contain a newline inside a field). -/
def csvParseContent (content : Str) : List (List Str) :=
  let parts := splitOnChar nlChar content
  let rows := if parts.getLast? = some [] then parts.dropLast else parts
  rows.map csvSplitRow

/-- `csv-parse` applied to one interactive input line, as `createRecord` /
`updateRecord` use it: the empty input produces no record at all, any other
line produces exactly one row. -/
def csvParseLine (input : Str) : List (List Str) :=
  if input = [] then [] else [csvSplitRow input]

/-! ## The Record entity (`src/models/Record.ts`, 17 positional fields)

String-typed fields hold `Option Str` because a destructured field of a
short row is JS `undefined` (`none`); numeric fields hold `JsNum`. -/

/-- One dataset row (`Record` / `BaseRecord` / `DetailedRecord` all carry
these same 17 fields in this order). -/
@[ext]
structure PipeRecord where
  date : Option Str
  month : JsNum
  year : JsNum
  company : Option Str
  pipeline : Option Str
  keyPoint : Option Str
  latitude : JsNum
  longitude : JsNum
  directionOfFlow : Option Str
  tradeType : Option Str
  product : Option Str
  throughput : JsNum
  committedVolumes : JsNum
  uncommittedVolumes : JsNum
  nameplateCapacity : JsNum
  availableCapacity : JsNum
  reasonForVariance : Option Str
deriving DecidableEq, Repr

/-- Unary `+` applied to a possibly-undefined string
(`+undefined = NaN`). -/
def jsPlusCoerce : Option Str → JsNum
  | none => none
  | some s => jsToNumber s

/-- `parseInt` applied to a possibly-undefined string
(`parseInt(undefined) = NaN`). -/
def parseIntCoerce : Option Str → JsNum
  | none => none
  | some s => jsParseInt s

/-- `parseFloat` applied to a possibly-undefined string
(`parseFloat(undefined) = NaN`). -/
def parseFloatCoerce : Option Str → JsNum
  | none => none
  | some s => jsParseFloat s

/-- Build a `Record` from one row the way both loaders do
(`new Record(row[0], +row[1], +row[2], row[3], …, row[16])`):
strings are taken as-is, numeric positions coerced with unary `+`. -/
def mkRecordPlus (row : List Str) : PipeRecord where
  date := row.get? 0
  month := jsPlusCoerce (row.get? 1)
  year := jsPlusCoerce (row.get? 2)
  company := row.get? 3
  pipeline := row.get? 4
  keyPoint := row.get? 5
  latitude := jsPlusCoerce (row.get? 6)
  longitude := jsPlusCoerce (row.get? 7)
  directionOfFlow := row.get? 8
  tradeType := row.get? 9
  product := row.get? 10
  throughput := jsPlusCoerce (row.get? 11)
  committedVolumes := jsPlusCoerce (row.get? 12)
  uncommittedVolumes := jsPlusCoerce (row.get? 13)
  nameplateCapacity := jsPlusCoerce (row.get? 14)
  availableCapacity := jsPlusCoerce (row.get? 15)
  reasonForVariance := row.get? 16

/-- Build a `DetailedRecord` from parsed user input the way
`createRecord`/`updateRecord` do (`parseInt(data[1])`, `parseInt(data[2])`,
`parseFloat` for the remaining numeric positions, strings as-is). -/
def mkRecordParsed (row : List Str) : PipeRecord where
  date := row.get? 0
  month := parseIntCoerce (row.get? 1)
  year := parseIntCoerce (row.get? 2)
  company := row.get? 3
  pipeline := row.get? 4
  keyPoint := row.get? 5
  latitude := parseFloatCoerce (row.get? 6)
  longitude := parseFloatCoerce (row.get? 7)
  directionOfFlow := row.get? 8
  tradeType := row.get? 9
  product := row.get? 10
  throughput := parseFloatCoerce (row.get? 11)
  committedVolumes := parseFloatCoerce (row.get? 12)
  uncommittedVolumes := parseFloatCoerce (row.get? 13)
  nameplateCapacity := parseFloatCoerce (row.get? 14)
  availableCapacity := parseFloatCoerce (row.get? 15)
  reasonForVariance := row.get? 16

/-! ## The two loaders (`src/services/datasetService.ts`)

The file system is abstracted as the outcome of reading the file:
`none` when the path does not exist or cannot be read, `some content`
otherwise. -/

/-- Naive-split variant: `readFileSync`, split on `'\n'`, skip index 0,
destructure every other line on a bare `split(',')`; the `catch` branch
logs the error and returns `[]`. -/
def loadDatasetNaive (readResult : Option Str) : List PipeRecord :=
  match readResult with
  | none => []
  | some data =>
    let lines := splitOnChar nlChar data
    (lines.enum.filterMap fun p =>
      if p.1 = 0 then none
      else some (mkRecordPlus (splitOnChar ',' p.2)))

/-- Outcome of the csv-parse loader: the promise either resolves with the
records or rejects with the stream error. -/
inductive LoadResult where
  | ok (records : List PipeRecord)
  | err (msg : Str)
deriving DecidableEq, Repr

/-- csv-parse variant: every parsed row (the header row included — there is
no skip) becomes a `Record`; a read error rejects the promise. -/
def loadDatasetCsv (readResult : Option Str) : LoadResult :=
  match readResult with
  | none => .err (str "ENOENT: no such file or directory")
  | some content => .ok ((csvParseContent content).map mkRecordPlus)

/-! ## The CSV writer (`saveDataset` in `src/services/mainService.ts`) -/

/-- The fixed header columns of `saveDataset`. -/
def headerLine : Str :=
  str "Date,Month,Year,Company,Pipeline,Key Point,Latitude,Longitude,Direction Of Flow,Trade Type,Product,Throughput (1000 m3/d),Committed Volumes (1000 m3/d),Uncommitted Volumes (1000 m3/d),Nameplate Capacity (1000 m3/d),Available Capacity (1000 m3/d),Reason For Variance"

/-- A field value as `Object.values(record)` yields it: a (possibly
undefined) string or a number. -/
inductive JsValue where
  | s (v : Option Str)
  | n (v : JsNum)
deriving DecidableEq, Repr

/-- `Object.values(record)` — the 17 fields in declaration order. -/
def recordValues (r : PipeRecord) : List JsValue :=
  [.s r.date, .n r.month, .n r.year, .s r.company, .s r.pipeline,
   .s r.keyPoint, .n r.latitude, .n r.longitude, .s r.directionOfFlow,
   .s r.tradeType, .s r.product, .n r.throughput, .n r.committedVolumes,
   .n r.uncommittedVolumes, .n r.nameplateCapacity, .n r.availableCapacity,
   .s r.reasonForVariance]

/-- `value.replace(/"/g, '""')` — double every quote character. -/
def escapeQuotes : Str → Str
  | [] => []
  | c :: rest =>
    if c = quoteChar then quoteChar :: quoteChar :: escapeQuotes rest
    else c :: escapeQuotes rest

/-- `saveDataset`'s per-field serialisation: a string containing a comma is
escaped and quote-wrapped, any other string is written raw; non-strings are
rendered by `join` (`undefined` becomes the empty string, numbers print via
`toString`). -/
def encodeValue : JsValue → Str
  | .s none => []
  | .s (some v) =>
    if ',' ∈ v then quoteChar :: escapeQuotes v ++ [quoteChar] else v
  | .n v => numToString v

/-- One CSV line for one record. -/
def recordToLine (r : PipeRecord) : Str :=
  joinWith ',' ((recordValues r).map encodeValue)

/-- The full file content `saveDataset` writes: header line, then one line
per record, joined with `'\n'` (no trailing newline). -/
def saveContent (rs : List PipeRecord) : Str :=
  joinWith nlChar (headerLine :: rs.map recordToLine)

/-! ## Record display

Two renderers exist: `displayRecord` in `src/utils/displayUtils.ts`
(the one the controller's List option calls), and the `Record.display`
method in `src/models/Record.ts`. -/

/-- The `'N/A'` placeholder. -/
def na : Str := str "N/A"

/-- `displayUtils.formatValue`:
`value === null || value === undefined || value === '' || value === 0
 ? 'N/A' : value`.
`null`/`undefined` map to the placeholder, so does the empty string and —
via `=== 0` — the number zero; `NaN` fails every strict-equality test and
falls through to be printed as `NaN`. -/
def formatValue : JsValue → Str
  | .s none => na
  | .s (some v) => if v = [] then na else v
  | .n none => numToString none
  | .n (some p) => if p.1 = 0 then na else numToString (some p)

/-- `x ?? 'N/A'` on a string field (`Record.display`): only
`null`/`undefined` trigger the placeholder; the empty string is shown
as-is. -/
def coalesceNA : Option Str → Str
  | none => na
  | some v => v

/-- `x?.toString() ?? 'N/A'` on a numeric field (`Record.display`): the
field is never null in the model, so it is always printed via `toString`
(zero prints `"0"`, `NaN` prints `"NaN"`). -/
def numDisplay (v : JsNum) : Str := numToString v

/-- The label/value lines printed by `displayUtils.displayRecord`, in
order.  `Date` uses `record.Date ?? 'N/A'`; every other field goes through
`formatValue`; `ReasonForVariance` additionally gets `|| 'N/A'` (a no-op,
since `formatValue` never returns the empty string). -/
def displayRecordLines (r : PipeRecord) : List (Str × Str) :=
  [(str "Date:", coalesceNA r.date),
   (str "Month:", formatValue (.n r.month)),
   (str "Year:", formatValue (.n r.year)),
   (str "Company:", formatValue (.s r.company)),
   (str "Pipeline:", formatValue (.s r.pipeline)),
   (str "Key Point:", formatValue (.s r.keyPoint)),
   (str "Latitude:", formatValue (.n r.latitude)),
   (str "Longitude:", formatValue (.n r.longitude)),
   (str "Direction Of Flow:", formatValue (.s r.directionOfFlow)),
   (str "Trade Type:", formatValue (.s r.tradeType)),
   (str "Product:", formatValue (.s r.product)),
   (str "Throughput (1000 m3/d):", formatValue (.n r.throughput)),
   (str "Committed Volumes (1000 m3/d):", formatValue (.n r.committedVolumes)),
   (str "Uncommitted Volumes (1000 m3/d):", formatValue (.n r.uncommittedVolumes)),
   (str "Nameplate Capacity (1000 m3/d):", formatValue (.n r.nameplateCapacity)),
   (str "Available Capacity (1000 m3/d):", formatValue (.n r.availableCapacity)),
   (str "Reason For Variance:",
     if formatValue (.s r.reasonForVariance) = [] then na
     else formatValue (.s r.reasonForVariance))]

/-- The label/value lines printed by the `Record.display` method
(`this.X ?? 'N/A'` / `this.X?.toString() ?? 'N/A'` per field). -/
def recordDisplayLines (r : PipeRecord) : List (Str × Str) :=
  [(str "Date:", coalesceNA r.date),
   (str "Month:", numDisplay r.month),
   (str "Year:", numDisplay r.year),
   (str "Company:", coalesceNA r.company),
   (str "Pipeline:", coalesceNA r.pipeline),
   (str "Key Point:", coalesceNA r.keyPoint),
   (str "Latitude:", numDisplay r.latitude),
   (str "Longitude:", numDisplay r.longitude),
   (str "Direction Of Flow:", coalesceNA r.directionOfFlow),
   (str "Trade Type:", coalesceNA r.tradeType),
   (str "Product:", coalesceNA r.product),
   (str "Throughput (1000 m3/d):", numDisplay r.throughput),
   (str "Committed Volumes (1000 m3/d):", numDisplay r.committedVolumes),
   (str "Uncommitted Volumes (1000 m3/d):", numDisplay r.uncommittedVolumes),
   (str "Nameplate Capacity (1000 m3/d):", numDisplay r.nameplateCapacity),
   (str "Available Capacity (1000 m3/d):", numDisplay r.availableCapacity),
   (str "Reason For Variance:", coalesceNA r.reasonForVariance)]

/-! ## The controller operations (`src/services/mainService.ts`) -/

/-- Observable outcome of one Create/Update/Delete interaction. -/
inductive OpOutcome where
  | rejected -- an error message was printed, control returned to the menu
  | done     -- a success message was printed, control returned to the menu
  | crashed  -- an uncaught exception escaped the callback
deriving DecidableEq, Repr

/-- `createRecord`: reject when the trimmed input is empty; parse the line
with csv-parse; reject unless exactly 17 fields were parsed; otherwise
construct a `DetailedRecord` and `push` it onto the array. -/
def createRecordStep (input : Str) (records : List PipeRecord) :
    List PipeRecord × OpOutcome :=
  if trimWS input = [] then (records, .rejected)
  else
    match csvParseLine input with
    | [] => (records, .crashed) -- `output[0].length` on undefined; unreachable: input is nonempty
    | row :: _ =>
      if row.length ≠ 17 then (records, .rejected)
      else (records ++ [mkRecordParsed row], .done)

/-- `index < 0` with `index` a JS number: `NaN < 0` is false. -/
def jsIdxLtZero : JsNum → Bool
  | none => false
  | some p => decide (p.1 < 0)

/-- `index >= len` with `index` a JS number: `NaN >= len` is false;
`i / 10^k ≥ len ↔ i ≥ len·10^k`. -/
def jsIdxGeLen (v : JsNum) (len : Nat) : Bool :=
  match v with
  | none => false
  | some p => decide ((len : Int) * 10 ^ p.2 ≤ p.1)

/-- `parseInt(input) - 1` as a JS number (exact on the parseInt fragment:
`NaN - 1 = NaN`). -/
def jsSubOne : JsNum → JsNum
  | none => none
  | some p => some (p.1 - 10 ^ p.2, p.2)

/-- `records.splice(index, 1)`: `ToIntegerOrInfinity(NaN) = 0`, so a `NaN`
index removes element 0; on the guarded path the index is a nonnegative
integer below the length. -/
def jsSpliceOne (records : List PipeRecord) : JsNum → List PipeRecord
  | none => records.eraseIdx 0
  | some p => records.eraseIdx p.1.toNat

/-- `records[index] = r`: a `NaN` index creates an own property named
`"NaN"` on the array object — the indexed elements and `length` are
untouched; a valid index replaces that element. -/
def jsArraySet (records : List PipeRecord) (idx : JsNum) (r : PipeRecord) :
    List PipeRecord :=
  match idx with
  | none => records
  | some p => records.set p.1.toNat r

/-- `deleteRecord`: `index = parseInt(input) - 1`; reject when
`index < 0 || index >= records.length`; otherwise `splice(index, 1)` and
report success.  A `NaN` index passes the guard (both comparisons are
false) and `splice` then removes element 0. -/
def deleteRecordStep (input : Str) (records : List PipeRecord) :
    List PipeRecord × OpOutcome :=
  let index := jsSubOne (jsParseInt input)
  if jsIdxLtZero index || jsIdxGeLen index records.length then
    (records, .rejected)
  else
    (jsSpliceOne records index, .done)

/-- `updateRecord`: `index = parseInt(input) - 1`; reject when
`index < 0 || index >= records.length`; then parse the second input line
with csv-parse and reject when fewer than 17 fields were parsed (`< 17`,
not `≠ 17`); otherwise overwrite `records[index]` with a `DetailedRecord`
built from `data[0] … data[16]`. -/
def updateRecordStep (idxInput line : Str) (records : List PipeRecord) :
    List PipeRecord × OpOutcome :=
  let index := jsSubOne (jsParseInt idxInput)
  if jsIdxLtZero index || jsIdxGeLen index records.length then
    (records, .rejected)
  else
    match csvParseLine line with
    | [] => (records, .crashed) -- `output[0]` is undefined; `.length` throws
    | row :: _ =>
      if row.length < 17 then (records, .rejected)
      else (jsArraySet records index (mkRecordParsed row), .done)

/-- `reloadDataset`: `records = await loadDataset(filePath)` inside
`try`/`catch` — a rejected load leaves `records` bound to its previous
value and reports the error. -/
def reloadDatasetStep (loadResult : LoadResult) (records : List PipeRecord) :
    List PipeRecord :=
  match loadResult with
  | .ok newRecords => newRecords
  | .err _ => records

/-! ## Observers, goodness predicates and test fixtures -/

/-- Project the records out of a successful load. -/
def loadOk : LoadResult → Option (List PipeRecord)
  | .ok rs => some rs
  | .err _ => none

/-- A string field value that survives the writer's quoting convention:
present (not `undefined`), no embedded quote character and no newline. -/
def GoodStr (o : Option Str) : Prop :=
  ∃ v, o = some v ∧ quoteChar ∉ v ∧ nlChar ∉ v

/-- A record whose field values contain no characters that break the
quoting convention (commas are fine — the writer quotes them). -/
def GoodRecord (r : PipeRecord) : Prop :=
  GoodStr r.date ∧ GoodStr r.company ∧ GoodStr r.pipeline ∧
  GoodStr r.keyPoint ∧ GoodStr r.directionOfFlow ∧ GoodStr r.tradeType ∧
  GoodStr r.product ∧ GoodStr r.reasonForVariance

/-- The field string that reading back one written field should recover:
a present string comes back verbatim, an `undefined` one comes back as the
empty string, a number comes back as its printed form. -/
def decodeValue : JsValue → Str
  | .s none => []
  | .s (some v) => v
  | .n v => numToString v

/-- `e` is the written form of the field value `f` and parses back to it:
either `f` is emitted raw (no comma, no quote in it), or `f` contains a
comma and is emitted quote-wrapped (with no embedded quote). -/
inductive EncodesTo : Str → Str → Prop where
  | raw (f : Str) (h : ∀ c ∈ f, c ≠ ',' ∧ c ≠ quoteChar) : EncodesTo f f
  | quoted (f : Str) (h : quoteChar ∉ f) :
      EncodesTo (quoteChar :: f ++ [quoteChar]) f

/-- A character that cannot interfere with tokenizing: not whitespace, not
the delimiter, not the quote character. -/
abbrev plainChar (c : Char) : Prop :=
  isWSChar c = false ∧ c ≠ ',' ∧ c ≠ quoteChar

/-- The extra record the csv-parse loader builds out of the written header
line (it has no header skip): `Date = "Date"`, every numeric field `NaN`. -/
def headerRecord : PipeRecord := mkRecordPlus (csvSplitRow headerLine)

/-- A plain 17-field CSV row used as a fixture. -/
def sampleRow : Str := str "d,1,2,c,p,k,1,2,f,t,pr,3,4,5,6,7,r"

/-- The record loaded from `sampleRow`. -/
def sampleRecord : PipeRecord := mkRecordPlus (splitOnChar ',' sampleRow)

/-- A 17-field row whose `Company` is empty and whose `Throughput` is `0`. -/
def zeroRow : Str := str "2024-01-01,1,2024,,p,k,1,2,f,t,pr,0,1,2,3,4,r"

/-- The record loaded from `zeroRow`: `Company = ""`, `Throughput = 0`. -/
def zeroRecord : PipeRecord := mkRecordPlus (splitOnChar ',' zeroRow)

/-- Fixture data row whose `KeyPoint` field is `"Key Point, Extra"`,
quoted because of the embedded comma. -/
def quotedRow : Str :=
  str "d,1,2,c,p," ++ quoteChar :: str "Key Point, Extra" ++
    quoteChar :: str ",1,2,f,t,pr,3,4,5,6,7,r"

/-- A 3-data-row fixture file: header, one plain row, the quoted row, one
plain row (no trailing newline). -/
def fixture3 : Str :=
  headerLine ++ nlChar :: sampleRow ++ nlChar :: quotedRow ++
    nlChar :: sampleRow

/-- A file with one data row whose numeric `Month` column holds the
unparsable text `abc`. -/
def badMonthRow : Str := str "d,abc,2024,c,p,k,1,2,f,t,pr,3,4,5,6,7,r"

/-- Header plus `badMonthRow`. -/
def badMonthContent : Str := headerLine ++ nlChar :: badMonthRow

/-- Header plus one data row plus a trailing newline — the usual shape of
a text file ending in a newline. -/
def trailingNlContent : Str := headerLine ++ nlChar :: sampleRow ++ [nlChar]

/-- Header plus one data row, no trailing newline. -/
def oneRowContent : Str := headerLine ++ nlChar :: sampleRow

/-- An 18-field input line (one surplus field after the 17 of
`sampleRow`). -/
def row18 : Str := sampleRow ++ str ",x"

/-! ## Claim C1 — display of zero and of the empty string -/

/-- C1: the claim says the display operation renders a numeric 0 as `"0"`
(never `"N/A"`) and an empty text field as `"N/A"`.  The code does neither
consistently: `displayUtils.displayRecord` routes every field through
`formatValue`, whose `value === 0` test maps the number 0 to `"N/A"`
(contradicting the repository's own displayRecord test, which expects
`"0"` and calls 0 "a valid value"), while the `Record.display` method
(`?? 'N/A'`) renders `Throughput = 0` as `"0"` but `Company = ""` as the
empty string instead of `"N/A"`. -/
theorem c1_display_zero_divergence :
    (displayRecordLines zeroRecord).get? 11 =
      some (str "Throughput (1000 m3/d):", na)
    ∧ na ≠ str "0"
    ∧ (displayRecordLines zeroRecord).get? 3 = some (str "Company:", na)
    ∧ (recordDisplayLines zeroRecord).get? 11 =
      some (str "Throughput (1000 m3/d):", str "0")
    ∧ (recordDisplayLines zeroRecord).get? 3 = some (str "Company:", str "")
    ∧ str "" ≠ na := by
  refine ⟨by decide, by decide, by decide, by decide, by decide, by decide⟩

/-! ## Claim C3 — quote-aware splitting -/

/-- C3 (counterexample): on the 3-data-row fixture whose second row holds
`"Key Point, Extra"` in quotes, the naive-split loader does yield 3
records, but the `KeyPoint` field of the quoted row is the corrupted text
`"Key Point` (leading quote kept, split at the embedded comma) — not the
verbatim `Key Point, Extra` the claim requires of every loader. -/
theorem c3_naive_split_corrupts :
    (loadDatasetNaive (some fixture3)).length = 3
    ∧ ((loadDatasetNaive (some fixture3)).get? 1).map PipeRecord.keyPoint =
      some (some (quoteChar :: str "Key Point"))
    ∧ (quoteChar :: str "Key Point") ≠ str "Key Point, Extra" := by
  refine ⟨by decide, by decide, by decide⟩

/-- C3 (amended): the csv-parse loader is quote-aware — the `KeyPoint`
field comes back verbatim, embedded comma included — but it emits one
record per row *including the header*, so the 3-data-row fixture yields 4
records; the naive-split loader yields exactly 3 records but corrupts the
quoted field. -/
theorem c3_csv_parse_quote_aware :
    (loadOk (loadDatasetCsv (some fixture3))).map List.length = some 4
    ∧ ((loadOk (loadDatasetCsv (some fixture3))).bind
        (fun rs => rs.get? 2)).map PipeRecord.keyPoint =
      some (some (str "Key Point, Extra"))
    ∧ (loadDatasetNaive (some fixture3)).length = 3 := by
  refine ⟨by decide, by decide, by decide⟩

/-! ## Claim C4 — distinguishable load failure -/

/-- C4: the claim (and the naive loader's own doc comment, which says it
throws on a read error) requires a failing load to be distinguishable from
an empty successful load.  The naive variant's `catch` branch instead
returns `[]` — exactly the value a successful load of a data-less file
returns — so the two outcomes coincide; only the csv-parse variant rejects
with a distinct error. -/
theorem c4_naive_swallows_failure :
    loadDatasetNaive none = []
    ∧ loadDatasetNaive (some headerLine) = []
    ∧ loadDatasetNaive none = loadDatasetNaive (some headerLine)
    ∧ loadDatasetCsv none = .err (str "ENOENT: no such file or directory") := by
  refine ⟨by decide, by decide, by decide, by decide⟩

/-! ## Claim C5 — coercion of unparsable numeric fields -/

/-- C5 (counterexample): loading a row whose numeric `Month` column holds
`abc` gives a record whose `Month` is `NaN` (`none`), not the number 0 the
claim requires; the same happens through Create's `parseInt`. -/
theorem c5_unparsable_is_nan_not_zero :
    ((loadDatasetNaive (some badMonthContent)).get? 0).map PipeRecord.month =
      some none
    ∧ ((createRecordStep badMonthRow []).1.get? 0).map PipeRecord.month =
      some none
    ∧ (none : JsNum) ≠ jsZero := by
  refine ⟨by decide, by decide, by decide⟩

/-- C5 (amended): a numeric field that fails to parse resolves to `NaN`,
not 0 and not an error, in both pipelines; 0 arises only from the empty
string under the loader's unary `+` (while Create's `parseInt`/`parseFloat`
make the empty string `NaN` as well). -/
theorem c5_nan_default :
    jsToNumber (str "abc") = none
    ∧ jsParseInt (str "abc") = none
    ∧ jsParseFloat (str "abc") = none
    ∧ jsToNumber [] = jsZero
    ∧ jsParseInt [] = none
    ∧ jsParseFloat [] = none
    ∧ ((loadDatasetNaive (some badMonthContent)).get? 0).map PipeRecord.month
      = some none
    ∧ ((createRecordStep badMonthRow []).1.get? 0).map PipeRecord.month
      = some none := by
  refine ⟨by decide, by decide, by decide, by decide, by decide, by decide,
    by decide, by decide⟩

/-! ## Claim C6 — non-numeric index input on Update/Delete -/

/-- C6: the claim requires a non-numeric index to be rejected exactly like
an out-of-range one, leaving the sequence unchanged.  In the code
`parseInt("abc")` is `NaN`, both guard comparisons on `NaN` are false, so
the guard is passed: Delete then runs `splice(NaN, 1)` — which removes the
*first* element and reports success — and Update runs
`records[NaN] = …` — which touches no element yet also reports success.
A numeric out-of-range index (`"99"` on one record) is properly
rejected. -/
theorem c6_nan_index_passes_guard :
    deleteRecordStep (str "abc") [sampleRecord] = ([], .done)
    ∧ updateRecordStep (str "abc") sampleRow [sampleRecord] =
      ([sampleRecord], .done)
    ∧ deleteRecordStep (str "99") [sampleRecord] = ([sampleRecord], .rejected) := by
  refine ⟨by decide, by decide, by decide⟩

/-! ## Claim C8 — header skipping and empty lines -/

/-- C8: the claim says the loader skips exactly the header line and builds
one record per subsequent non-empty line.  The naive variant does skip
line 0 but also builds a junk record from the empty line after a trailing
newline (2 records from a 1-data-row file); the csv-parse variant skips
nothing at all — its first record is built from the header row itself
(`Date = "Date"`), contradicting the repository's own loader test, which
requires every loaded record's `Date` to match a `YYYY-MM-DD` pattern. -/
theorem c8_header_and_empty_lines :
    (loadDatasetNaive (some trailingNlContent)).length = 2
    ∧ (loadOk (loadDatasetCsv (some oneRowContent))).map List.length = some 2
    ∧ ((loadOk (loadDatasetCsv (some oneRowContent))).bind
        (fun rs => rs.get? 0)).map PipeRecord.date = some (some (str "Date")) := by
  refine ⟨by decide, by decide, by decide⟩

/-! ## Claim C9 — failed Reload retains the previous sequence -/

/-- C9: when the loader's promise rejects, `reloadDataset`'s `catch`
branch leaves `records` bound to its previous value (same list, same
order) and only reports the error; in particular a reload against a
missing file (csv-parse loader rejecting) changes nothing. -/
theorem c9_reload_failure_keeps_records (e : Str) (rs : List PipeRecord) :
    reloadDatasetStep (.err e) rs = rs
    ∧ reloadDatasetStep (loadDatasetCsv none) rs = rs :=
  ⟨rfl, rfl⟩

/-! ## Claim C7 — Create validation and append -/

/-- C7: for every input line and every state of the sequence, Create
rejects empty (after trimming) input with the sequence unchanged, rejects
a parse of any field count other than 17 with the sequence unchanged, and
on exactly 17 fields appends exactly one new record built from those
fields at the end, leaving all prior elements in place. -/
theorem c7_create_contract (input : Str) (records : List PipeRecord) :
    (trimWS input = [] → createRecordStep input records = (records, .rejected))
    ∧ (trimWS input ≠ [] → (csvSplitRow input).length ≠ 17 →
        createRecordStep input records = (records, .rejected))
    ∧ (trimWS input ≠ [] → (csvSplitRow input).length = 17 →
        createRecordStep input records =
          (records ++ [mkRecordParsed (csvSplitRow input)], .done)) := by
  have hnil : trimWS ([] : Str) = [] := rfl
  refine ⟨fun h => by simp [createRecordStep, h], fun h1 h2 => ?_, fun h1 h2 => ?_⟩
  · have hne : input ≠ [] := fun he => h1 (he ▸ hnil)
    simp [createRecordStep, h1, csvParseLine, hne, h2]
  · have hne : input ≠ [] := fun he => h1 (he ▸ hnil)
    simp [createRecordStep, h1, csvParseLine, hne, h2]

/-- C7 (witness): the scenario from the spec — Create with `"a,b"`
(2 fields) on a 1-record sequence is rejected and the sequence is
unchanged. -/
theorem c7_create_witness :
    createRecordStep (str "a,b") [sampleRecord] = ([sampleRecord], .rejected) :=
  (c7_create_contract (str "a,b") [sampleRecord]).2.1 (by decide) (by decide)

/-! ## Claim C10 — Update parsing versus Create parsing -/

/-- C10 (counterexample): an 18-field input line is rejected by Create
(`≠ 17` check) but accepted by Update (`< 17` check), so Update does not
parse input with the same accept/reject decision as Create. -/
theorem c10_update_accepts_18_fields :
    createRecordStep row18 [sampleRecord] = ([sampleRecord], .rejected)
    ∧ (updateRecordStep (str "1") row18 [sampleRecord]).2 = .done := by
  refine ⟨by decide, by decide⟩

/-- C10 (amended): Update tokenizes the line with the same csv-parse call
as Create but accepts any parse of *at least* 17 fields (building the
record from fields 0–16), where Create demands exactly 17.  For a numeric
index `i`: outside `[1, length]` the operation is rejected with the
sequence unchanged; inside, with a non-empty line parsing to ≥ 17 fields,
exactly the element at position `i` is replaced (`List.set (i-1)`), the
length is unchanged and every other element keeps its value. -/
theorem c10_update_contract (idxInput line : Str) (records : List PipeRecord)
    (i : Int) (hp : jsParseInt idxInput = some (i, 0)) :
    ((i - 1 < 0 ∨ (records.length : Int) ≤ i - 1) →
      updateRecordStep idxInput line records = (records, .rejected))
    ∧ (0 ≤ i - 1 → i - 1 < (records.length : Int) → line ≠ [] →
        (csvSplitRow line).length < 17 →
        updateRecordStep idxInput line records = (records, .rejected))
    ∧ (0 ≤ i - 1 → i - 1 < (records.length : Int) → line ≠ [] →
        17 ≤ (csvSplitRow line).length →
        updateRecordStep idxInput line records =
          (records.set (i - 1).toNat (mkRecordParsed (csvSplitRow line)), .done)
        ∧ (records.set (i - 1).toNat (mkRecordParsed (csvSplitRow line))).length
            = records.length) := by
  have hidx : jsSubOne (jsParseInt idxInput) = some (i - 1, 0) := by
    rw [hp]; simp [jsSubOne]
  refine ⟨fun h => ?_, fun h1 h2 h3 h4 => ?_, fun h1 h2 h3 h4 => ?_⟩
  · have hcond : (jsIdxLtZero (some (i - 1, 0)) ||
        jsIdxGeLen (some (i - 1, 0)) records.length) = true := by
      simp only [jsIdxLtZero, jsIdxGeLen, Bool.or_eq_true, decide_eq_true_eq,
        pow_zero, mul_one]
      omega
    simp [updateRecordStep, hidx, hcond]
  · have hcond : (jsIdxLtZero (some (i - 1, 0)) ||
        jsIdxGeLen (some (i - 1, 0)) records.length) = false := by
      simp only [jsIdxLtZero, jsIdxGeLen, Bool.or_eq_false_iff,
        decide_eq_false_iff_not, pow_zero, mul_one, not_lt, not_le]
      omega
    simp [updateRecordStep, hidx, hcond, csvParseLine, h3, h4]
  · have hcond : (jsIdxLtZero (some (i - 1, 0)) ||
        jsIdxGeLen (some (i - 1, 0)) records.length) = false := by
      simp only [jsIdxLtZero, jsIdxGeLen, Bool.or_eq_false_iff,
        decide_eq_false_iff_not, pow_zero, mul_one, not_lt, not_le]
      omega
    have h5 : ¬ ((csvSplitRow line).length < 17) := not_lt.mpr h4
    refine ⟨?_, by simp⟩
    simp [updateRecordStep, hidx, hcond, csvParseLine, h3, h5, jsArraySet]

/-- C10 (witness): updating record 1 of a 1-record sequence with a valid
17-field line replaces exactly that element. -/
theorem c10_update_witness :
    updateRecordStep (str "1") sampleRow [sampleRecord] =
      ([sampleRecord].set 0 (mkRecordParsed (csvSplitRow sampleRow)), .done) := by
  have h := (c10_update_contract (str "1") sampleRow [sampleRecord] 1
    (by decide)).2.2 (by decide) (by decide) (by decide) (by decide)
  simpa using h.1

/-! ## Digit strings: printing and reading decimal digits -/

theorem digitChar_facts :
    ∀ d < 10, plainChar (digitChar d) ∧ isDigitChar (digitChar d) = true ∧
      charVal (digitChar d) = d := by decide

theorem natDigitsAux_eq (fuel n : Nat) (h : n ≤ fuel) :
    natDigitsAux fuel n = Nat.digits 10 n := by
  induction fuel generalizing n with
  | zero =>
    have hn : n = 0 := Nat.le_zero.mp h
    subst hn
    simp [natDigitsAux, Nat.digits_zero]
  | succ fuel ih =>
    cases n with
    | zero => simp [natDigitsAux, Nat.digits_zero]
    | succ m =>
      rw [natDigitsAux, ih ((m + 1) / 10)
        (by
          have := Nat.div_lt_self (Nat.succ_pos m) (by norm_num : 1 < 10)
          omega),
        ← Nat.digits_def' (by norm_num : 1 < 10) (Nat.succ_pos m)]

theorem natDigitsLSB_eq (n : Nat) : natDigitsLSB n = Nat.digits 10 n :=
  natDigitsAux_eq n n le_rfl

theorem natDigitsMSB_mem {m : Nat} {c : Char} (h : c ∈ natDigitsMSB m) :
    ∃ d, d < 10 ∧ c = digitChar d := by
  unfold natDigitsMSB at h
  rw [natDigitsLSB_eq] at h
  split at h
  · simp at h; exact ⟨0, by norm_num, h⟩
  · rw [List.mem_reverse, List.mem_map] at h
    obtain ⟨d, hd, rfl⟩ := h
    exact ⟨d, Nat.digits_lt_base (by norm_num) hd, rfl⟩

theorem natDigitsMSB_ne_nil (m : Nat) : natDigitsMSB m ≠ [] := by
  unfold natDigitsMSB
  rw [natDigitsLSB_eq]
  split
  · simp
  · simpa [Nat.digits_ne_nil_iff_ne_zero] using ‹¬ m = 0›

theorem digitsToNat_append_singleton (ds : Str) (c : Char) :
    digitsToNat (ds ++ [c]) = 10 * digitsToNat ds + charVal c := by
  simp [digitsToNat, List.foldl_append]

theorem digitsToNat_rev_map (L : List Nat) (hL : ∀ d ∈ L, d < 10) :
    digitsToNat ((L.map digitChar).reverse) = Nat.ofDigits 10 L := by
  induction L with
  | nil => rfl
  | cons d L' ih =>
    rw [List.map_cons, List.reverse_cons, digitsToNat_append_singleton,
      ih (fun x hx => hL x (List.mem_cons_of_mem d hx)), Nat.ofDigits_cons,
      (digitChar_facts d (hL d (List.mem_cons_self d L'))).2.2]
    ring

theorem digitsToNat_natDigitsMSB (m : Nat) : digitsToNat (natDigitsMSB m) = m := by
  unfold natDigitsMSB
  rw [natDigitsLSB_eq]
  split
  · subst m; decide
  · rw [digitsToNat_rev_map _ (fun d hd => Nat.digits_lt_base (by norm_num) hd),
      Nat.ofDigits_digits]

theorem foldl_zero_replicate (j : Nat) :
    List.foldl (fun acc c => 10 * acc + charVal c) 0
      (List.replicate j (digitChar 0)) = 0 := by
  induction j with
  | zero => rfl
  | succ j ih =>
    rw [List.replicate_succ, List.foldl_cons]
    have h0 : 10 * 0 + charVal (digitChar 0) = 0 := by decide
    rw [h0]
    exact ih

theorem digitsToNat_padZero (n : Nat) (ds : Str) :
    digitsToNat (padZero n ds) = digitsToNat ds := by
  unfold padZero digitsToNat
  rw [List.foldl_append, foldl_zero_replicate]

theorem padZero_mem {n m : Nat} {c : Char}
    (h : c ∈ padZero n (natDigitsMSB m)) : ∃ d, d < 10 ∧ c = digitChar d := by
  unfold padZero at h
  rcases List.mem_append.mp h with h | h
  · exact ⟨0, by norm_num, List.eq_of_mem_replicate h⟩
  · exact natDigitsMSB_mem h

theorem padZero_length (n : Nat) (ds : Str) :
    (padZero n ds).length = max n ds.length := by
  unfold padZero
  simp [List.length_replicate]
  omega

/-! ## Whitespace trimming -/

theorem dropWhile_ws_eq_self (l : Str) (h : ∀ c ∈ l, isWSChar c = false) :
    l.dropWhile isWSChar = l := by
  cases l with
  | nil => rfl
  | cons c rest =>
    rw [List.dropWhile_cons, if_neg]
    simp [h c (List.mem_cons_self c rest)]

theorem trimWS_eq_self (l : Str) (h : ∀ c ∈ l, isWSChar c = false) :
    trimWS l = l := by
  unfold trimWS
  rw [dropWhile_ws_eq_self l h,
    dropWhile_ws_eq_self l.reverse (fun c hc => h c (List.mem_reverse.mp hc)),
    List.reverse_reverse]

/-! ## Characters of printed numbers -/

theorem numToString_plain (n : JsNum) : ∀ c ∈ numToString n, plainChar c := by
  cases n with
  | none => decide
  | some p =>
    obtain ⟨i, k⟩ := p
    intro c hc
    have hsign : ∀ x ∈ (if i < 0 then ['-'] else ([] : Str)), plainChar x := by
      split <;> simp_all; decide
    have hdig : ∀ d, d < 10 → plainChar (digitChar d) :=
      fun d hd => (digitChar_facts d hd).1
    by_cases hk : k = 0
    · simp only [numToString, hk, if_pos rfl, if_true] at hc
      rcases List.mem_append.mp hc with h | h
      · exact hsign c h
      · obtain ⟨d, hd, rfl⟩ := natDigitsMSB_mem h
        exact hdig d hd
    · simp only [numToString, hk, if_false, if_neg hk] at hc
      rcases List.mem_append.mp hc with h | h
      · rcases List.mem_append.mp h with h | h
        · exact hsign c h
        · obtain ⟨d, hd, rfl⟩ := padZero_mem (List.take_subset _ _ h)
          exact hdig d hd
      · rcases List.mem_cons.mp h with h | h
        · subst h; decide
        · obtain ⟨d, hd, rfl⟩ := padZero_mem (List.drop_subset _ _ h)
          exact hdig d hd

theorem numToString_no_ws (n : JsNum) :
    ∀ c ∈ numToString n, isWSChar c = false :=
  fun c hc => (numToString_plain n c hc).1

/-! ## takeDigits on a digit block -/

theorem takeDigits_append (ds r : Str) (hds : ∀ c ∈ ds, isDigitChar c = true)
    (hr : ∀ c, r.head? = some c → isDigitChar c = false) :
    takeDigits (ds ++ r) = (ds, r) := by
  induction ds with
  | nil =>
    cases r with
    | nil => rfl
    | cons c rest => simp [takeDigits, hr c rfl]
  | cons c ds' ih =>
    have hc : isDigitChar c = true := hds c (List.mem_cons_self c ds')
    have := ih (fun x hx => hds x (List.mem_cons_of_mem c hx))
    simp [takeDigits, hc, this]

/-! ## Parsing a printed number recovers it -/

theorem digitChar_not_sign :
    ∀ d < 10, digitChar d ≠ '-' ∧ digitChar d ≠ '+' := by decide

theorem natDigitsMSB_isDigit (m : Nat) :
    ∀ c ∈ natDigitsMSB m, isDigitChar c = true := fun c hc => by
  obtain ⟨d, hd, rfl⟩ := natDigitsMSB_mem hc
  exact (digitChar_facts d hd).2.1

theorem parseDecimalAll_digits (m : Nat) :
    parseDecimalAll (natDigitsMSB m) = some (m, 0) := by
  have htake : takeDigits (natDigitsMSB m ++ []) = (natDigitsMSB m, []) :=
    takeDigits_append _ _ (natDigitsMSB_isDigit m) (fun c hc => by simp at hc)
  rw [List.append_nil] at htake
  unfold parseDecimalAll
  rw [htake]
  simp [natDigitsMSB_ne_nil m, digitsToNat_natDigitsMSB]

theorem parseDecimalAll_padded (m k : Nat) :
    parseDecimalAll
      ((padZero (k + 1) (natDigitsMSB m)).take
          ((padZero (k + 1) (natDigitsMSB m)).length - k)
        ++ '.' :: (padZero (k + 1) (natDigitsMSB m)).drop
          ((padZero (k + 1) (natDigitsMSB m)).length - k))
      = some (m, k) := by
  set P := padZero (k + 1) (natDigitsMSB m) with hP
  have hPdig : ∀ c ∈ P, isDigitChar c = true := fun c hc => by
    obtain ⟨d, hd, rfl⟩ := padZero_mem hc
    exact (digitChar_facts d hd).2.1
  have hlen : k + 1 ≤ P.length := by
    rw [hP, padZero_length]; omega
  have htake1 : takeDigits (P.take (P.length - k) ++ '.' :: P.drop (P.length - k))
      = (P.take (P.length - k), '.' :: P.drop (P.length - k)) :=
    takeDigits_append _ _ (fun c hc => hPdig c (List.take_subset _ _ hc))
      (fun c hc => by
        simp only [List.head?_cons, Option.some_inj] at hc
        subst hc; decide)
  have htake2 : takeDigits (P.drop (P.length - k) ++ []) = (P.drop (P.length - k), []) :=
    takeDigits_append _ _ (fun c hc => hPdig c (List.drop_subset _ _ hc))
      (fun c hc => by simp at hc)
  rw [List.append_nil] at htake2
  have htk : (P.take (P.length - k)).length = P.length - k := by
    rw [List.length_take]; omega
  have hne : P.take (P.length - k) ≠ [] := by
    intro h
    have := congrArg List.length h
    rw [htk] at this
    simp at this
    omega
  unfold parseDecimalAll
  rw [htake1]
  simp only [if_pos rfl]
  rw [htake2]
  rw [List.take_append_drop]
  have hval : digitsToNat P = m := by
    rw [hP, digitsToNat_padZero, digitsToNat_natDigitsMSB]
  have hdlen : (P.drop (P.length - k)).length = k := by
    rw [List.length_drop]; omega
  rw [hval, hdlen]
  simp [hne]

theorem jsToNumber_numToString (n : JsNum) : jsToNumber (numToString n) = n := by
  cases n with
  | none => decide
  | some p =>
    obtain ⟨i, k⟩ := p
    have htrim : trimWS (numToString (some (i, k))) = numToString (some (i, k)) :=
      trimWS_eq_self _ (numToString_no_ws _)
    show jsToNumberAux (trimWS (numToString (some (i, k)))) = some (i, k)
    rw [htrim]
    by_cases hk : k = 0
    · subst hk
      by_cases hi : i < 0
      · have hbody : numToString (some (i, 0)) = '-' :: natDigitsMSB i.natAbs := by
          simp [numToString, hi]
        rw [hbody]
        rw [show jsToNumberAux ('-' :: natDigitsMSB i.natAbs)
            = applySign true (parseDecimalAll (natDigitsMSB i.natAbs)) from by
          simp [jsToNumberAux]]
        rw [parseDecimalAll_digits]
        simp [applySign, abs_of_nonpos hi.le]
      · have hbody : numToString (some (i, 0)) = natDigitsMSB i.natAbs := by
          simp [numToString, hi]
        obtain ⟨c, rest, hds⟩ := List.exists_cons_of_ne_nil (natDigitsMSB_ne_nil i.natAbs)
        obtain ⟨d, hd, hcd⟩ := natDigitsMSB_mem (c := c) (by rw [hds]; exact List.mem_cons_self c rest)
        have hnegn : c ≠ '-' := hcd ▸ (digitChar_not_sign d hd).1
        have hplusn : c ≠ '+' := hcd ▸ (digitChar_not_sign d hd).2
        rw [hbody, hds]
        rw [show jsToNumberAux (c :: rest)
            = applySign false (parseDecimalAll (c :: rest)) from by
          simp [jsToNumberAux, hnegn, hplusn]]
        rw [← hds, parseDecimalAll_digits]
        simp [applySign]
        omega
    · have hkey := parseDecimalAll_padded i.natAbs k
      set P := padZero (k + 1) (natDigitsMSB i.natAbs) with hP
      set T := P.take (P.length - k) with hT
      set D := P.drop (P.length - k) with hD
      have hTne : T ≠ [] := by
        have hlenP : k + 1 ≤ P.length := by rw [hP, padZero_length]; omega
        intro h
        have := congrArg List.length h
        rw [hT, List.length_take] at this
        simp at this
        omega
      by_cases hi : i < 0
      · have hbody : numToString (some (i, k)) = '-' :: (T ++ '.' :: D) := by
          simp only [numToString, hi, if_true, if_neg hk]
          rfl
        rw [hbody]
        rw [show jsToNumberAux ('-' :: (T ++ '.' :: D))
            = applySign true (parseDecimalAll (T ++ '.' :: D)) from by
          simp [jsToNumberAux]]
        rw [hkey]
        simp [applySign, abs_of_nonpos hi.le]
      · have hbody : numToString (some (i, k)) = T ++ '.' :: D := by
          simp only [numToString, hi, if_false, if_neg hk]
          rfl
        obtain ⟨c, rest, hds⟩ := List.exists_cons_of_ne_nil hTne
        obtain ⟨d, hd, hcd⟩ := padZero_mem (n := k + 1) (m := i.natAbs)
          (c := c) (List.take_subset _ _ (by rw [← hT, hds]; exact List.mem_cons_self c rest))
        have hnegn : c ≠ '-' := hcd ▸ (digitChar_not_sign d hd).1
        have hplusn : c ≠ '+' := hcd ▸ (digitChar_not_sign d hd).2
        rw [hbody, hds, List.cons_append]
        rw [show jsToNumberAux (c :: (rest ++ '.' :: D))
            = applySign false (parseDecimalAll (c :: (rest ++ '.' :: D))) from by
          simp [jsToNumberAux, hnegn, hplusn]]
        rw [← List.cons_append, ← hds, hkey]
        simp [applySign]
        omega

/-! ## Tokenizer step equations -/

theorem csvRowAux_nil (b : Bool) (cur : Str) : csvRowAux [] b cur = [cur] := by
  cases b <;> rfl

theorem csvRowAux_cons_false (c : Char) (rest cur : Str) :
    csvRowAux (c :: rest) false cur =
      if c = ',' then cur :: csvRowAux rest false []
      else if c = quoteChar && cur = [] then csvRowAux rest true cur
      else csvRowAux rest false (cur ++ [c]) := by
  cases rest <;> rfl

theorem csvRowAux_one_true (c : Char) (cur : Str) :
    csvRowAux [c] true cur = if c = quoteChar then [cur] else [cur ++ [c]] := rfl

theorem csvRowAux_cons2_true (c c2 : Char) (rest cur : Str) :
    csvRowAux (c :: c2 :: rest) true cur =
      if c = quoteChar then
        (if c2 = quoteChar then csvRowAux rest true (cur ++ [quoteChar])
         else csvRowAux (c2 :: rest) false cur)
      else csvRowAux (c2 :: rest) true (cur ++ [c]) := rfl

/-- Consuming a block of plain characters in the unquoted state just moves
it into the current field. -/
theorem csvRowAux_raw (f : Str) (hf : ∀ c ∈ f, c ≠ ',' ∧ c ≠ quoteChar) :
    ∀ l cur, csvRowAux (f ++ l) false cur = csvRowAux l false (cur ++ f) := by
  induction f with
  | nil => intro l cur; simp
  | cons c f' ih =>
    intro l cur
    have hc := hf c (List.mem_cons_self c f')
    have hf' : ∀ x ∈ f', x ≠ ',' ∧ x ≠ quoteChar :=
      fun x hx => hf x (List.mem_cons_of_mem c hx)
    rw [List.cons_append, csvRowAux_cons_false, if_neg hc.1,
      if_neg (by simp [hc.2]), ih hf' l (cur ++ [c])]
    simp

/-- Consuming a block of quote-free characters in the quoted state (with
the closing quote still ahead) moves it into the current field. -/
theorem csvRowAux_quoted (f : Str) (hf : ∀ c ∈ f, c ≠ quoteChar) :
    ∀ l cur, csvRowAux (f ++ quoteChar :: l) true cur =
      csvRowAux (quoteChar :: l) true (cur ++ f) := by
  induction f with
  | nil => intro l cur; simp
  | cons c f' ih =>
    intro l cur
    have hc := hf c (List.mem_cons_self c f')
    have hf' : ∀ x ∈ f', x ≠ quoteChar :=
      fun x hx => hf x (List.mem_cons_of_mem c hx)
    rcases hq : f' ++ quoteChar :: l with _ | ⟨c2, rest⟩
    · exact absurd hq (by simp)
    · rw [List.cons_append, hq, csvRowAux_cons2_true, if_neg hc, ← hq,
        ih hf' l (cur ++ [c])]
      simp

/-- A closing quote (not doubled) leaves the quoted state. -/
theorem csvRowAux_close (l cur : Str) (hl : l.head? ≠ some quoteChar) :
    csvRowAux (quoteChar :: l) true cur = csvRowAux l false cur := by
  cases l with
  | nil => rw [csvRowAux_one_true, if_pos rfl, csvRowAux_nil]
  | cons c2 rest =>
    rw [csvRowAux_cons2_true, if_pos rfl, if_neg]
    intro h
    exact hl (by rw [h]; rfl)

theorem escapeQuotes_eq_self (f : Str) (h : quoteChar ∉ f) :
    escapeQuotes f = f := by
  induction f with
  | nil => rfl
  | cons c f' ih =>
    have hc : c ≠ quoteChar := fun he => h (he ▸ List.mem_cons_self c f')
    rw [escapeQuotes, if_neg hc, ih (fun hx => h (List.mem_cons_of_mem c hx))]

/-! ## One encoded field parses back -/

theorem encodesTo_last (e f : Str) (h : EncodesTo e f) :
    csvRowAux e false [] = [f] := by
  cases h with
  | raw g hg =>
    have := csvRowAux_raw e hg [] []
    simpa [csvRowAux_nil] using this
  | quoted g hg =>
    have hg' : ∀ c ∈ f, c ≠ quoteChar := fun c hc he => hg (he ▸ hc)
    rw [List.cons_append, csvRowAux_cons_false, if_neg (by decide),
      if_pos (by simp), csvRowAux_quoted f hg' [] [], csvRowAux_one_true,
      if_pos rfl]
    simp

theorem encodesTo_cons (e f t : Str) (h : EncodesTo e f) :
    csvRowAux (e ++ ',' :: t) false [] = f :: csvRowAux t false [] := by
  cases h with
  | raw g hg =>
    rw [csvRowAux_raw e hg (',' :: t) [], csvRowAux_cons_false, if_pos rfl]
    simp
  | quoted g hg =>
    have hg' : ∀ c ∈ f, c ≠ quoteChar := fun c hc he => hg (he ▸ hc)
    have heq : (quoteChar :: f ++ [quoteChar]) ++ ',' :: t
        = quoteChar :: (f ++ quoteChar :: ',' :: t) := by simp
    rw [heq, csvRowAux_cons_false, if_neg (by decide), if_pos (by simp),
      csvRowAux_quoted f hg' (',' :: t) [],
      csvRowAux_close (',' :: t) _ (by simp; decide),
      csvRowAux_cons_false, if_pos rfl]
    simp

/-- A whole row of encoded fields parses back to the original fields. -/
theorem csvSplitRow_join : ∀ (es fs : List Str),
    List.Forall₂ EncodesTo es fs → es ≠ [] →
    csvSplitRow (joinWith ',' es) = fs
  | [], _, _, hne => absurd rfl hne
  | [e], fs, h, _ => by
    cases h with
    | cons he htail =>
      cases htail
      rw [joinWith]
      exact encodesTo_last _ _ he
  | e :: e2 :: es'', fs, h, _ => by
    cases h with
    | cons he htail =>
      rw [joinWith]
      show csvRowAux (e ++ ',' :: joinWith ',' (e2 :: es'')) false [] = _
      rw [encodesTo_cons _ _ _ he]
      have ihr := csvSplitRow_join (e2 :: es'') _ htail (by simp)
      rw [show csvRowAux (joinWith ',' (e2 :: es'')) false []
          = csvSplitRow (joinWith ',' (e2 :: es'')) from rfl, ihr]

/-! ## Splitting a joined file recovers the lines -/

theorem splitOnChar_no_sep (sep : Char) (l : Str) (h : sep ∉ l) :
    splitOnChar sep l = [l] := by
  induction l with
  | nil => rfl
  | cons c rest ih =>
    have hc : c ≠ sep := fun he => h (he ▸ List.mem_cons_self c rest)
    simp [splitOnChar, hc, ih (fun hx => h (List.mem_cons_of_mem c hx))]

theorem splitOnChar_append (sep : Char) (l : Str) (h : sep ∉ l) (rest : Str) :
    splitOnChar sep (l ++ sep :: rest) = l :: splitOnChar sep rest := by
  induction l with
  | nil => simp [splitOnChar]
  | cons c l' ih =>
    have hc : c ≠ sep := fun he => h (he ▸ List.mem_cons_self c l')
    rw [List.cons_append]
    simp [splitOnChar, hc, ih (fun hx => h (List.mem_cons_of_mem c hx))]

theorem splitOnChar_join (sep : Char) : ∀ (ls : List Str), ls ≠ [] →
    (∀ l ∈ ls, sep ∉ l) → splitOnChar sep (joinWith sep ls) = ls
  | [], hne, _ => absurd rfl hne
  | [l], _, h => by
    rw [joinWith]
    exact splitOnChar_no_sep sep l (h l (List.mem_singleton_self l))
  | l :: l2 :: ls'', _, h => by
    rw [joinWith, splitOnChar_append sep l (h l (List.mem_cons_self l _)),
      splitOnChar_join sep (l2 :: ls'') (by simp)
        (fun x hx => h x (List.mem_cons_of_mem l hx))]

theorem mem_joinWith (sep : Char) : ∀ (ls : List Str) (c : Char),
    c ∈ joinWith sep ls → c = sep ∨ ∃ l ∈ ls, c ∈ l
  | [], c, h => absurd h (by simp [joinWith])
  | [l], c, h => by
    rw [joinWith] at h
    exact Or.inr ⟨l, List.mem_singleton_self l, h⟩
  | l :: l2 :: ls'', c, h => by
    rw [joinWith] at h
    rcases List.mem_append.mp h with h | h
    · exact Or.inr ⟨l, List.mem_cons_self l _, h⟩
    · rcases List.mem_cons.mp h with h | h
      · exact Or.inl h
      · rcases mem_joinWith sep (l2 :: ls'') c h with h | ⟨x, hx, hcx⟩
        · exact Or.inl h
        · exact Or.inr ⟨x, List.mem_cons_of_mem l hx, hcx⟩

theorem joinWith_ne_nil (sep : Char) (a b : Str) (rest : List Str) :
    joinWith sep (a :: b :: rest) ≠ [] := by
  rw [joinWith]
  intro h
  rcases List.append_eq_nil.mp h with ⟨_, h2⟩
  exact List.cons_ne_nil _ _ h2

theorem getLast?_ne_nil_of_all (ls : List Str) (h : ∀ l ∈ ls, l ≠ []) :
    ls.getLast? ≠ some [] := by
  induction ls with
  | nil => simp
  | cons a ls' ih =>
    cases ls' with
    | nil => simpa using h a (List.mem_singleton_self a)
    | cons b ls'' =>
      rw [List.getLast?_cons_cons]
      exact ih (fun l hl => h l (List.mem_cons_of_mem a hl))

/-! ## The writer's per-field output parses back -/

theorem encodesTo_encodeValue_s (v : Str) (hq : quoteChar ∉ v) :
    EncodesTo (encodeValue (.s (some v))) v := by
  simp only [encodeValue]
  split
  · rw [escapeQuotes_eq_self v hq]
    exact EncodesTo.quoted v hq
  · exact EncodesTo.raw v (fun c hc =>
      ⟨fun he => ‹¬ ',' ∈ v› (he ▸ hc), fun he => hq (he ▸ hc)⟩)

theorem encodesTo_encodeValue_n (n : JsNum) :
    EncodesTo (encodeValue (.n n)) (numToString n) :=
  EncodesTo.raw _ (fun c hc =>
    ⟨(numToString_plain n c hc).2.1, (numToString_plain n c hc).2.2⟩)

theorem encodeValue_s_no_nl (v : Str) (hq : quoteChar ∉ v) (hnl : nlChar ∉ v) :
    nlChar ∉ encodeValue (.s (some v)) := by
  simp only [encodeValue]
  split
  · rw [escapeQuotes_eq_self v hq]
    intro h
    rcases List.mem_append.mp h with h | h
    · rcases List.mem_cons.mp h with h | h
      · exact absurd h (by decide)
      · exact hnl h
    · rcases List.mem_singleton.mp h with h
      exact absurd h (by decide)
  · exact hnl

theorem encodeValue_n_no_nl (n : JsNum) : nlChar ∉ encodeValue (.n n) := by
  intro h
  have := (numToString_plain n _ h).1
  exact absurd this (by decide)

theorem recordToLine_ne_nil (r : PipeRecord) : recordToLine r ≠ [] := by
  unfold recordToLine recordValues
  simp only [List.map_cons]
  exact joinWith_ne_nil ',' _ _ _

theorem recordToLine_no_nl (r : PipeRecord) (hr : GoodRecord r) :
    nlChar ∉ recordToLine r := by
  obtain ⟨⟨v0, h0, h0q, h0n⟩, ⟨v3, h3, h3q, h3n⟩, ⟨v4, h4, h4q, h4n⟩,
    ⟨v5, h5, h5q, h5n⟩, ⟨v8, h8, h8q, h8n⟩, ⟨v9, h9, h9q, h9n⟩,
    ⟨v10, h10, h10q, h10n⟩, ⟨v16, h16, h16q, h16n⟩⟩ := hr
  intro hmem
  rcases mem_joinWith ',' _ _ hmem with h | ⟨e, he, hce⟩
  · exact absurd h (by decide)
  · rw [List.mem_map] at he
    obtain ⟨v, hv, rfl⟩ := he
    simp only [recordValues, List.mem_cons, List.not_mem_nil, or_false] at hv
    rcases hv with rfl | rfl | rfl | rfl | rfl | rfl | rfl | rfl | rfl | rfl
      | rfl | rfl | rfl | rfl | rfl | rfl | rfl
    · rw [h0] at hce; exact encodeValue_s_no_nl v0 h0q h0n hce
    · exact encodeValue_n_no_nl _ hce
    · exact encodeValue_n_no_nl _ hce
    · rw [h3] at hce; exact encodeValue_s_no_nl v3 h3q h3n hce
    · rw [h4] at hce; exact encodeValue_s_no_nl v4 h4q h4n hce
    · rw [h5] at hce; exact encodeValue_s_no_nl v5 h5q h5n hce
    · exact encodeValue_n_no_nl _ hce
    · exact encodeValue_n_no_nl _ hce
    · rw [h8] at hce; exact encodeValue_s_no_nl v8 h8q h8n hce
    · rw [h9] at hce; exact encodeValue_s_no_nl v9 h9q h9n hce
    · rw [h10] at hce; exact encodeValue_s_no_nl v10 h10q h10n hce
    · exact encodeValue_n_no_nl _ hce
    · exact encodeValue_n_no_nl _ hce
    · exact encodeValue_n_no_nl _ hce
    · exact encodeValue_n_no_nl _ hce
    · exact encodeValue_n_no_nl _ hce
    · rw [h16] at hce; exact encodeValue_s_no_nl v16 h16q h16n hce

/-- Loading back the one line written for a good record recovers it. -/
theorem mkRecordPlus_roundtrip (r : PipeRecord) (hr : GoodRecord r) :
    mkRecordPlus (csvSplitRow (recordToLine r)) = r := by
  obtain ⟨⟨v0, h0, h0q, h0n⟩, ⟨v3, h3, h3q, h3n⟩, ⟨v4, h4, h4q, h4n⟩,
    ⟨v5, h5, h5q, h5n⟩, ⟨v8, h8, h8q, h8n⟩, ⟨v9, h9, h9q, h9n⟩,
    ⟨v10, h10, h10q, h10n⟩, ⟨v16, h16, h16q, h16n⟩⟩ := hr
  have hsplit : csvSplitRow (recordToLine r) =
      [v0, numToString r.month, numToString r.year, v3, v4, v5,
       numToString r.latitude, numToString r.longitude, v8, v9, v10,
       numToString r.throughput, numToString r.committedVolumes,
       numToString r.uncommittedVolumes, numToString r.nameplateCapacity,
       numToString r.availableCapacity, v16] := by
    unfold recordToLine
    apply csvSplitRow_join
    · simp only [recordValues, List.map_cons, List.map_nil]
      exact .cons (by rw [h0]; exact encodesTo_encodeValue_s v0 h0q)
        (.cons (encodesTo_encodeValue_n _)
        (.cons (encodesTo_encodeValue_n _)
        (.cons (by rw [h3]; exact encodesTo_encodeValue_s v3 h3q)
        (.cons (by rw [h4]; exact encodesTo_encodeValue_s v4 h4q)
        (.cons (by rw [h5]; exact encodesTo_encodeValue_s v5 h5q)
        (.cons (encodesTo_encodeValue_n _)
        (.cons (encodesTo_encodeValue_n _)
        (.cons (by rw [h8]; exact encodesTo_encodeValue_s v8 h8q)
        (.cons (by rw [h9]; exact encodesTo_encodeValue_s v9 h9q)
        (.cons (by rw [h10]; exact encodesTo_encodeValue_s v10 h10q)
        (.cons (encodesTo_encodeValue_n _)
        (.cons (encodesTo_encodeValue_n _)
        (.cons (encodesTo_encodeValue_n _)
        (.cons (encodesTo_encodeValue_n _)
        (.cons (encodesTo_encodeValue_n _)
        (.cons (by rw [h16]; exact encodesTo_encodeValue_s v16 h16q)
        .nil))))))))))))))))
    · simp [recordValues]
  rw [hsplit]
  apply PipeRecord.ext
  · show some v0 = r.date
    exact h0.symm
  · show jsToNumber (numToString r.month) = r.month
    exact jsToNumber_numToString _
  · show jsToNumber (numToString r.year) = r.year
    exact jsToNumber_numToString _
  · show some v3 = r.company
    exact h3.symm
  · show some v4 = r.pipeline
    exact h4.symm
  · show some v5 = r.keyPoint
    exact h5.symm
  · show jsToNumber (numToString r.latitude) = r.latitude
    exact jsToNumber_numToString _
  · show jsToNumber (numToString r.longitude) = r.longitude
    exact jsToNumber_numToString _
  · show some v8 = r.directionOfFlow
    exact h8.symm
  · show some v9 = r.tradeType
    exact h9.symm
  · show some v10 = r.product
    exact h10.symm
  · show jsToNumber (numToString r.throughput) = r.throughput
    exact jsToNumber_numToString _
  · show jsToNumber (numToString r.committedVolumes) = r.committedVolumes
    exact jsToNumber_numToString _
  · show jsToNumber (numToString r.uncommittedVolumes) = r.uncommittedVolumes
    exact jsToNumber_numToString _
  · show jsToNumber (numToString r.nameplateCapacity) = r.nameplateCapacity
    exact jsToNumber_numToString _
  · show jsToNumber (numToString r.availableCapacity) = r.availableCapacity
    exact jsToNumber_numToString _
  · show some v16 = r.reasonForVariance
    exact h16.symm

/-- Parsing the written file yields the header row plus one row per
record, each row being the record's fields. -/
theorem csvParseContent_save (rs : List PipeRecord) (hr : ∀ r ∈ rs, GoodRecord r) :
    csvParseContent (saveContent rs) =
      csvSplitRow headerLine :: rs.map (fun r => csvSplitRow (recordToLine r)) := by
  unfold csvParseContent saveContent
  have hsplit : splitOnChar nlChar (joinWith nlChar (headerLine :: rs.map recordToLine))
      = headerLine :: rs.map recordToLine := by
    apply splitOnChar_join
    · simp
    · intro l hl
      rcases List.mem_cons.mp hl with rfl | hl
      · decide
      · obtain ⟨r, hrmem, rfl⟩ := List.mem_map.mp hl
        exact recordToLine_no_nl r (hr r hrmem)
  rw [hsplit]
  dsimp only
  have hlast : (headerLine :: rs.map recordToLine).getLast? ≠ some [] := by
    apply getLast?_ne_nil_of_all
    intro l hl
    rcases List.mem_cons.mp hl with rfl | hl
    · decide
    · obtain ⟨r, _, rfl⟩ := List.mem_map.mp hl
      exact recordToLine_ne_nil r
  rw [if_neg hlast]
  simp [List.map_map]

/-- C2 (amended): for every sequence of Records whose field values contain
no characters that break the quoting convention (every string field
present, free of quote characters and newlines — commas are fine), loading
the file produced by Save with the csv-parse loader yields one extra
leading Record parsed from the emitted header row, followed by a sequence
identical to the one saved (same length, same order, same field values).
The quoting convention round-trips; only the header handling breaks the
claim as stated. -/
theorem c2_save_load_appends_header (rs : List PipeRecord)
    (hr : ∀ r ∈ rs, GoodRecord r) :
    loadDatasetCsv (some (saveContent rs)) = .ok (headerRecord :: rs) := by
  show LoadResult.ok (List.map mkRecordPlus (csvParseContent (saveContent rs)))
    = LoadResult.ok (headerRecord :: rs)
  rw [csvParseContent_save rs hr]
  simp only [List.map_cons, List.map_map]
  have htail : List.map (mkRecordPlus ∘ fun r => csvSplitRow (recordToLine r)) rs = rs := by
    have h1 : ∀ r ∈ rs, (mkRecordPlus ∘ fun r => csvSplitRow (recordToLine r)) r = id r :=
      fun r hrm => mkRecordPlus_roundtrip r (hr r hrm)
    rw [List.map_congr_left h1, List.map_id]
  rw [htail]
  rfl

/-- `sampleRecord`'s fields contain no quoting-convention breakers. -/
theorem sampleRecord_good : GoodRecord sampleRecord := by
  refine ⟨⟨_, rfl, by decide, by decide⟩, ⟨_, rfl, by decide, by decide⟩,
    ⟨_, rfl, by decide, by decide⟩, ⟨_, rfl, by decide, by decide⟩,
    ⟨_, rfl, by decide, by decide⟩, ⟨_, rfl, by decide, by decide⟩,
    ⟨_, rfl, by decide, by decide⟩, ⟨_, rfl, by decide, by decide⟩⟩

/-- C2 (counterexample): a one-record sequence whose fields satisfy the
claim's own hypothesis (no quoting-convention breakers) does not round-trip
as the claim states: the loaded sequence is not equal to the saved one
(it has the extra header record in front). -/
theorem c2_roundtrip_counterexample :
    GoodRecord sampleRecord ∧
    loadDatasetCsv (some (saveContent [sampleRecord])) ≠
      LoadResult.ok [sampleRecord] :=
  ⟨sampleRecord_good, by decide⟩

/-- C2 (witness): the amended round-trip at the concrete one-record
sequence. -/
theorem c2_roundtrip_witness :
    loadDatasetCsv (some (saveContent [sampleRecord])) =
      LoadResult.ok (headerRecord :: [sampleRecord]) :=
  c2_save_load_appends_header [sampleRecord] (fun r hrm => by
    rcases List.mem_singleton.mp hrm with rfl
    exact sampleRecord_good)

end TsPipeline
